import Mathlib

/-!
Shallow embedding of `src/utils/read_nasa.py` (NASA Li-ion battery `.mat`
reader) and proofs of the specification claims.

Modelling conventions:
* Python numbers (MATLAB doubles) are modelled as exact rationals `ℚ`.
* Python functions that can raise become `Option`-valued Lean functions
  (`none` = the Python call raises and the whole transform aborts).
* The `.mat` cell-array wrappers (`arr[0]`, `cycle_data[0][0][j][0]`) are
  serialization artifacts; a cycle record is modelled directly by the values
  those accessors yield: a type tag, a date vector, an ambient-temperature
  scalar, and a list of per-field numeric sequences (position-matched).
* A pandas `DataFrame` is modelled column-orientedly: a row count together
  with an ordered association list from column name to the column's values.
-/

namespace ReadNasa

/-- Result of Python `datetime(...)`: a naive calendar timestamp. -/
structure PyDateTime where
  year : ℤ
  month : ℤ
  day : ℤ
  hour : ℤ
  minute : ℤ
  second : ℤ
  microsecond : ℤ
  deriving DecidableEq, Repr

/-- Python `int()` on a float/rational: truncation toward zero. -/
def pyInt (q : ℚ) : ℤ := if 0 ≤ q then ⌊q⌋ else ⌈q⌉

/-- Number of days in a month of the proleptic Gregorian calendar, as used by
Python `datetime` to validate the `day` argument. -/
def daysInMonth (year month : ℤ) : ℤ :=
  if month = 2 then
    if year % 4 = 0 ∧ (year % 100 ≠ 0 ∨ year % 400 = 0) then 29 else 28
  else if month = 4 ∨ month = 6 ∨ month = 9 ∨ month = 11 then 30
  else 31

/-- Python `datetime(year=..., ..., microsecond=...)`: validates each field's
range and raises `ValueError` (here: `none`) when any is out of range. -/
def datetime (year month day hour minute second microsecond : ℤ) :
    Option PyDateTime :=
  if 1 ≤ year ∧ year ≤ 9999 ∧ 1 ≤ month ∧ month ≤ 12 ∧
     1 ≤ day ∧ day ≤ daysInMonth year month ∧
     0 ≤ hour ∧ hour ≤ 23 ∧ 0 ≤ minute ∧ minute ≤ 59 ∧
     0 ≤ second ∧ second ≤ 59 ∧
     0 ≤ microsecond ∧ microsecond ≤ 999999 then
    some ⟨year, month, day, hour, minute, second, microsecond⟩
  else none

/-- Embedding of `_datevec2datetime(vec)`: `vec[k]` raises `IndexError` when
the vector has fewer than six components; otherwise the six components are
passed to `datetime`, with the sub-second part computed as
`int((vec[5]-int(vec[5]))*1000)` and passed to the `microsecond` argument. -/
def _datevec2datetime (vec : List ℚ) : Option PyDateTime :=
  match vec.get? 0, vec.get? 1, vec.get? 2, vec.get? 3, vec.get? 4,
        vec.get? 5 with
  | some v0, some v1, some v2, some v3, some v4, some v5 =>
      datetime (pyInt v0) (pyInt v1) (pyInt v2) (pyInt v3) (pyInt v4)
        (pyInt v5) (pyInt ((v5 - (pyInt v5 : ℚ)) * 1000))
  | _, _, _, _, _, _ => none

/-- Sub-second part of a timestamp, in seconds: `microsecond / 10^6`. -/
def subsecSeconds (t : PyDateTime) : ℚ := (t.microsecond : ℚ) / 1000000

/-- Values that can appear in a cell of the output table: numbers, the cycle
type tag (a string), start timestamps, and pandas' missing value (NaN). -/
inductive Value where
  | num (q : ℚ)
  | str (s : String)
  | dt (t : PyDateTime)
  | na
  deriving DecidableEq, Repr

/-- One cycle record of the `.mat` file, after stripping the cell-array
wrappers: `type` is `cycles['type'][0][i][0]`, `time` is
`cycles['time'][0][i][0]` (a MATLAB datevec), `ambient_temperature` is
`cycles['ambient_temperature'][0][i][0][0]`, and `data` holds the per-field
numeric sequences `cycles['data'][0,i][0][0][j][0]` in field order `j`. -/
structure CycleRecord where
  type : String
  time : List ℚ
  ambient_temperature : ℚ
  data : List (List ℚ)
  deriving Repr

/-- Result of `_get_metadata`: the `meta` dictionary with its three lists. -/
structure Meta where
  types : List String
  start_times : List PyDateTime
  ambient_temps : List ℚ
  deriving Repr

/-- Embedding of `_get_metadata(cycles)`: three parallel comprehensions over
the cycle list; the `start_times` comprehension aborts (`none`) as soon as a
date-vector conversion raises. -/
def _get_metadata (cycles : List CycleRecord) : Option Meta :=
  match cycles.mapM (fun c => _datevec2datetime c.time) with
  | some sts =>
      some ⟨cycles.map (fun c => c.type), sts,
            cycles.map (fun c => c.ambient_temperature)⟩
  | none => none

/-- Embedding of `_get_metadata_at(meta, i)`: the three list indexings
`meta['types'][i]`, `meta['start_times'][i]`, `meta['ambient_temps'][i]`,
each of which raises `IndexError` (`none`) when `i` is out of range. -/
def _get_metadata_at (meta : Meta) (i : ℕ) :
    Option (String × PyDateTime × ℚ) :=
  match meta.types.get? i, meta.start_times.get? i,
        meta.ambient_temps.get? i with
  | some t, some st, some amb => some (t, st, amb)
  | _, _, _ => none

/-- Field list of the `DATA_FIELDS` table for key `'charge'`. -/
def chargeFields : List String :=
  ["Voltage_measured", "Current_measured", "Temperature_measured",
   "Current_charge", "Voltage_charge", "Time"]

/-- Field list of the `DATA_FIELDS` table for key `'discharge'`. -/
def dischargeFields : List String :=
  ["Voltage_measured", "Current_measured", "Temperature_measured",
   "Current_charge", "Voltage_charge", "Time", "Capacity"]

/-- Field list of the `DATA_FIELDS` table for key `'impedance'`. -/
def impedanceFields : List String :=
  ["Sense_current", "Battery_current", "Current_ratio",
   "Battery_impedance", "Rectified_impedance", "Re", "Rct"]

/-- Embedding of the `DATA_FIELDS` dict lookup `DATA_FIELDS[dtype]`: `none`
models the `KeyError` raised for a type tag outside the three keys. -/
def DATA_FIELDS (dtype : String) : Option (List String) :=
  if dtype = "charge" then some chargeFields
  else if dtype = "discharge" then some dischargeFields
  else if dtype = "impedance" then some impedanceFields
  else none

/-- A value of `cycle_dict` after the scalarization loop: either still an
array of samples, or a scalar extracted from a one-element array. -/
inductive ColVal where
  | arr (l : List ℚ)
  | scl (x : ℚ)
  deriving DecidableEq, Repr

/-- Model of a pandas `DataFrame`: a row count and the ordered columns. Every
construction in this file keeps each column's length equal to `nrows`
(`DataFrame.Uniform` below). -/
structure DataFrame where
  nrows : ℕ
  cols : List (String × List Value)
  deriving DecidableEq, Repr

/-- Well-formedness: every column holds exactly `nrows` values. -/
def DataFrame.Uniform (df : DataFrame) : Prop :=
  ∀ p ∈ df.cols, (p.2).length = df.nrows

/-- Names of the columns, in order. -/
def DataFrame.colNames (df : DataFrame) : List String :=
  df.cols.map (fun p => p.1)

/-- Column access `df[name]` on the model: the first column named `name`,
`none` when the frame has no such column. -/
def DataFrame.getCol (df : DataFrame) (name : String) : Option (List Value) :=
  (df.cols.find? (fun p => p.1 = name)).map (fun p => p.2)

/-- Cell access: value of column `name` at row `k` (`Value.na` when the
column or the row does not exist; used only under bounds hypotheses). -/
def DataFrame.cell (df : DataFrame) (name : String) (k : ℕ) : Value :=
  match df.getCol name with
  | some col => col.getD k Value.na
  | none => Value.na

/-- Column assignment `df[name] = v` with a scalar: pandas overwrites an
existing column of that name, else appends a new one; the scalar is broadcast
to the frame's row count. -/
def DataFrame.setCol (df : DataFrame) (name : String) (v : Value) :
    DataFrame :=
  if df.cols.any (fun p => p.1 = name) then
    ⟨df.nrows, df.cols.map (fun p =>
      if p.1 = name then (name, List.replicate df.nrows v) else p)⟩
  else
    ⟨df.nrows, df.cols ++ [(name, List.replicate df.nrows v)]⟩

/-- Materialization of one `cycle_dict` entry as a column of `L` rows:
an array column keeps its samples, a scalar is broadcast. -/
def colValToCol (L : ℕ) : ColVal → List Value
  | ColVal.arr l => l.map Value.num
  | ColVal.scl x => List.replicate L (Value.num x)

/-- Lengths of the array-valued (non-scalar) entries of a dict, in order. -/
def arrLens (d : List (String × ColVal)) : List ℕ :=
  d.filterMap (fun p => match p.2 with
    | ColVal.arr l => some l.length
    | ColVal.scl _ => none)

/-- Model of the pandas constructor `DataFrame(cycle_dict)` on a dict of
arrays and scalars: raises (`none`) when a non-empty dict holds only scalars
(`ValueError: If using all scalar values, you must pass an index`) or when
two array values have different lengths; otherwise the row count is the
common array length and scalars broadcast. -/
def DataFrame.fromDict (d : List (String × ColVal)) : Option DataFrame :=
  match (arrLens d).head? with
  | none => if d.isEmpty then some ⟨0, []⟩ else none
  | some L =>
      if (arrLens d).all (fun n => n = L) then
        some ⟨L, d.map (fun p => (p.1, colValToCol L p.2))⟩
      else none

/-- Step `cycle_dict = {field: cycle_data[0][0][j][0] for j, field in
enumerate(fields)}`: pairs each schema field with the position-matched
sequence of the nested block; `none` models the `IndexError` raised when the
block has fewer entries than the schema has fields. (The Python dict keeps
insertion order; the schema field lists are duplicate-free, so an ordered
association list is a faithful model.) -/
def buildDict (fields : List String) (cycle_data : List (List ℚ)) :
    Option (List (String × List ℚ)) :=
  if fields.length ≤ cycle_data.length then some (fields.zip cycle_data)
  else none

/-- Scalarization loop `for col, data in cycle_dict.items(): if len(data) == 1:
cycle_dict[col] = data[0]`. -/
def scalarize (d : List (String × List ℚ)) : List (String × ColVal) :=
  d.map (fun p => match p.2 with
    | [x] => (p.1, ColVal.scl x)
    | l => (p.1, ColVal.arr l))

/-- Embedding of `_cycle2df(cycle_data, meta, i)`. -/
def _cycle2df (cycle_data : List (List ℚ)) (meta : Meta) (i : ℕ) :
    Option DataFrame := do
  let (dtype, start_time, ambient_temp) ← _get_metadata_at meta i
  let fields ← DATA_FIELDS dtype
  let cycle_dict ← buildDict fields cycle_data
  let df ← DataFrame.fromDict (scalarize cycle_dict)
  return ((df.setCol "type" (Value.str dtype)).setCol "start_time"
    (Value.dt start_time)).setCol "ambient_temp" (Value.num ambient_temp)

/-- Column of `df` for `name` as seen by `pd.concat`: the column itself when
present, else a block of missing values of the frame's height. -/
def blockCol (df : DataFrame) (name : String) : List Value :=
  match df.getCol name with
  | some col => col
  | none => List.replicate df.nrows Value.na

/-- Column names of the concatenation: union of the frames' column sets in
order of first appearance (`sort=False` keeps this order). -/
def unionCols (dfs : List DataFrame) : List String :=
  dfs.foldl (fun acc df =>
    acc ++ (df.colNames.filter (fun n => ¬ acc.contains n))) []

/-- Model of `pd.concat(dfs, ignore_index=True, sort=False)`: raises
(`none`) on an empty list (`ValueError: No objects to concatenate`);
otherwise stacks the frames' rows in list order under the union of their
columns, filling missing columns with `Value.na`, and the result carries a
fresh positional row index `0, 1, ...`. -/
def concatDfs (dfs : List DataFrame) : Option DataFrame :=
  match dfs with
  | [] => none
  | _ =>
      some ⟨(dfs.map (fun df => df.nrows)).sum,
            (unionCols dfs).map (fun n =>
              (n, dfs.flatMap (fun df => blockCol df n)))⟩

/-- Embedding of the parse-and-reshape core of `read_nasa(i)`, on the parsed
cycle list (file loading itself is outside the model): extract the metadata
once, flatten every cycle in source order, and concatenate. -/
def read_nasa_transform (cycles : List CycleRecord) : Option DataFrame := do
  let meta ← _get_metadata cycles
  let dfs ← cycles.enum.mapM (fun p => _cycle2df p.2.data meta p.1)
  concatDfs dfs

/-- Embedding of `'%02d' % i` for a natural battery index: the decimal form
padded with zeros to a minimum (not exact) width of two. -/
def pct02d (i : ℕ) : String :=
  if i < 10 then "0" ++ Nat.repr i else Nat.repr i

/-- Embedding of `battery_name = 'B00' + '%02d' % i`. -/
def battery_name (i : ℕ) : String := "B00" ++ pct02d i

/-- Embedding of `file_path = f'./data/raw/{battery_name}.mat'`. -/
def file_path (i : ℕ) : String := "./data/raw/" ++ battery_name i ++ ".mat"

/-- Lengths of the sequences `_cycle2df` extracts from the nested block: one
per schema field, position-matched. -/
def extractedLens (fields : List String) (cycle_data : List (List ℚ)) :
    List ℕ :=
  (cycle_data.take fields.length).map (fun l => l.length)

/-- Length of the longest extracted field sequence of length greater than
one (0 when there is none). -/
def maxNonScalarLen (fields : List String) (cycle_data : List (List ℚ)) :
    ℕ :=
  ((extractedLens fields cycle_data).filter (fun L => 1 < L)).foldr max 0

/-! Helper lemmas about `List.mapM` in the `Option` monad. -/

theorem mapMo_length {α β : Type} (f : α → Option β) :
    ∀ (l : List α) (l' : List β), List.mapM' f l = some l' →
      l'.length = l.length := by
  intro l
  induction l with
  | nil => intro l' h; simp only [List.mapM'] at h; cases h; rfl
  | cons a t ih =>
      intro l' h
      simp only [List.mapM', Option.pure_def, Option.bind_eq_bind,
        Option.bind_eq_some, Option.some.injEq] at h
      obtain ⟨b, _, t', ht, rfl⟩ := h
      simpa using ih t' ht

theorem mapMo_get? {α β : Type} (f : α → Option β) :
    ∀ (l : List α) (l' : List β), List.mapM' f l = some l' →
      ∀ (i : ℕ) (a : α), l.get? i = some a → l'.get? i = f a := by
  intro l
  induction l with
  | nil => intro l' _ i a ha; simp at ha
  | cons x t ih =>
      intro l' h i a ha
      simp only [List.mapM', Option.pure_def, Option.bind_eq_bind,
        Option.bind_eq_some, Option.some.injEq] at h
      obtain ⟨b, hb, t', ht, rfl⟩ := h
      cases i with
      | zero => simp at ha; subst ha; simpa using hb.symm
      | succ n => simp only [List.get?] at ha ⊢; exact ih t' ht n a ha

theorem mapMo_none {α β : Type} (f : α → Option β) :
    ∀ (l : List α) (a : α), a ∈ l → f a = none →
      List.mapM' f l = none := by
  intro l
  induction l with
  | nil => intro a ha; simp at ha
  | cons x t ih =>
      intro a ha hf
      rcases List.mem_cons.mp ha with rfl | hmem
      · simp [List.mapM', hf]
      · simp only [List.mapM', Option.pure_def, Option.bind_eq_bind]
        cases hfx : f x with
        | none => rfl
        | some b => simp [ih a hmem hf]

/-! Helper lemmas about `DataFrame.setCol` and `DataFrame.getCol`. -/

theorem nrows_setCol (df : DataFrame) (n : String) (v : Value) :
    (df.setCol n v).nrows = df.nrows := by
  unfold DataFrame.setCol
  split <;> rfl

theorem find?_overwrite (n : String) (r : List Value) :
    ∀ (l : List (String × List Value)),
      l.any (fun p => p.1 = n) = true →
      (l.map (fun p =>
        if p.1 = n then (n, r) else p)).find? (fun p => p.1 = n) =
        some (n, r) := by
  intro l
  induction l with
  | nil => intro h; simp at h
  | cons p t ih =>
      intro h
      by_cases hp : p.1 = n
      · simp only [List.map_cons, if_pos hp]
        rw [List.find?_cons_of_pos _ (by simp)]
      · simp only [List.any_cons, Bool.or_eq_true, decide_eq_true_eq] at h
        rcases h with h | h
        · exact absurd h hp
        · simp only [List.map_cons, if_neg hp]
          rw [List.find?_cons_of_neg _ (by simpa using hp)]
          exact ih h

theorem getCol_setCol_self (df : DataFrame) (n : String) (v : Value) :
    (df.setCol n v).getCol n = some (List.replicate df.nrows v) := by
  unfold DataFrame.setCol DataFrame.getCol
  cases hany : df.cols.any (fun p => p.1 = n) with
  | true =>
      rw [if_pos rfl]
      rw [find?_overwrite n (List.replicate df.nrows v) df.cols hany]
      rfl
  | false =>
      rw [if_neg Bool.false_ne_true]
      rw [List.find?_append]
      have hnone : df.cols.find? (fun p => decide (p.1 = n)) = none := by
        rw [List.find?_eq_none]
        intro p hp hdec
        have hc : df.cols.any (fun p => decide (p.1 = n)) = true :=
          List.any_eq_true.mpr ⟨p, hp, hdec⟩
        rw [hany] at hc
        cases hc
      rw [hnone]
      simp

theorem find?_overwrite_ne (m n : String) (r : List Value) (hmn : m ≠ n) :
    ∀ (l : List (String × List Value)),
      (l.map (fun p =>
        if p.1 = n then (n, r) else p)).find? (fun p => p.1 = m) =
        l.find? (fun p => p.1 = m) := by
  intro l
  induction l with
  | nil => rfl
  | cons p t ih =>
      by_cases hp : p.1 = n
      · have hm : ¬ p.1 = m := fun he => hmn (he.symm.trans hp)
        simp only [List.map_cons, if_pos hp]
        rw [List.find?_cons_of_neg _ (by simpa using Ne.symm hmn),
          List.find?_cons_of_neg _ (by simpa using hm)]
        exact ih
      · by_cases hm : p.1 = m
        · simp only [List.map_cons, if_neg hp]
          rw [List.find?_cons_of_pos _ (by simpa using hm),
            List.find?_cons_of_pos _ (by simpa using hm)]
        · simp only [List.map_cons, if_neg hp]
          rw [List.find?_cons_of_neg _ (by simpa using hm),
            List.find?_cons_of_neg _ (by simpa using hm)]
          exact ih

theorem getCol_setCol_ne (df : DataFrame) (m n : String) (v : Value)
    (hmn : m ≠ n) : (df.setCol n v).getCol m = df.getCol m := by
  unfold DataFrame.setCol DataFrame.getCol
  cases hany : df.cols.any (fun p => p.1 = n) with
  | true =>
      rw [if_pos rfl]
      rw [find?_overwrite_ne m n (List.replicate df.nrows v) hmn df.cols]
  | false =>
      rw [if_neg Bool.false_ne_true]
      rw [List.find?_append]
      have h1 : List.find? (fun p => decide (p.1 = m))
          [(n, List.replicate df.nrows v)] = none := by
        simp [Ne.symm hmn]
      rw [h1]
      simp

theorem uniform_setCol (df : DataFrame) (n : String) (v : Value)
    (hU : df.Uniform) : (df.setCol n v).Uniform := by
  unfold DataFrame.setCol
  cases hany : df.cols.any (fun p => p.1 = n) with
  | true =>
      rw [if_pos rfl]
      intro p hp
      simp only [List.mem_map] at hp
      obtain ⟨q, hq, hqe⟩ := hp
      by_cases hqn : q.1 = n
      · simp only [hqn, if_true] at hqe
        simp [← hqe]
      · simp only [hqn, if_false] at hqe
        exact hqe ▸ hU q hq
  | false =>
      rw [if_neg Bool.false_ne_true]
      intro p hp
      rcases List.mem_append.mp hp with hp | hp
      · exact hU p hp
      · simp only [List.mem_singleton] at hp
        simp [hp]

/-! Helper lemmas about `DataFrame.fromDict`. -/

theorem fromDict_spec (d : List (String × ColVal)) (df : DataFrame)
    (h : DataFrame.fromDict d = some df) :
    df.cols = d.map (fun p => (p.1, colValToCol df.nrows p.2)) ∧
    (∀ n ∈ arrLens d, n = df.nrows) ∧
    (arrLens d = [] → d = [] ∧ df.nrows = 0) ∧
    (arrLens d ≠ [] → (arrLens d).head? = some df.nrows) := by
  unfold DataFrame.fromDict at h
  split at h
  · rename_i harr
    split at h
    · rename_i hd
      have hdnil : d = [] := List.isEmpty_iff.mp hd
      subst hdnil
      cases h
      exact ⟨rfl, by simp [arrLens], fun _ => ⟨rfl, rfl⟩,
        fun hc => absurd rfl hc⟩
    · cases h
  · rename_i L harr
    split at h
    · rename_i hall
      cases h
      refine ⟨rfl, ?_, ?_, ?_⟩
      · intro n hn
        exact of_decide_eq_true (List.all_eq_true.mp hall n hn)
      · intro hnil
        rw [hnil] at harr
        simp at harr
      · intro _
        rw [harr]
    · cases h

theorem uniform_fromDict (d : List (String × ColVal)) (df : DataFrame)
    (h : DataFrame.fromDict d = some df) : df.Uniform := by
  obtain ⟨hcols, hall, _, _⟩ := fromDict_spec d df h
  intro p hp
  rw [hcols] at hp
  simp only [List.mem_map] at hp
  obtain ⟨q, hq, hqe⟩ := hp
  cases hv : q.2 with
  | arr l =>
      have hlen : l.length ∈ arrLens d := by
        simp only [arrLens, List.mem_filterMap]
        exact ⟨q, hq, by rw [hv]⟩
      have := hall l.length hlen
      simp [← hqe, hv, colValToCol, this]
  | scl x => simp [← hqe, hv, colValToCol]

/-! Structural characterization of a successful `_cycle2df` run. -/

theorem cycle2df_spec (cd : List (List ℚ)) (meta : Meta) (i : ℕ)
    (df : DataFrame) (h : _cycle2df cd meta i = some df) :
    ∃ t st amb fields dict df0,
      _get_metadata_at meta i = some (t, st, amb) ∧
      DATA_FIELDS t = some fields ∧
      buildDict fields cd = some dict ∧
      DataFrame.fromDict (scalarize dict) = some df0 ∧
      df = ((df0.setCol "type" (Value.str t)).setCol "start_time"
        (Value.dt st)).setCol "ambient_temp" (Value.num amb) := by
  unfold _cycle2df at h
  cases hm : _get_metadata_at meta i with
  | none => rw [hm] at h; cases h
  | some trip =>
      obtain ⟨t, st, amb⟩ := trip
      rw [hm] at h
      simp only [bind, Option.some_bind] at h
      cases hf : DATA_FIELDS t with
      | none => rw [hf, Option.none_bind] at h; cases h
      | some fields =>
          rw [hf, Option.some_bind] at h
          cases hb : buildDict fields cd with
          | none => rw [hb, Option.none_bind] at h; cases h
          | some dict =>
              rw [hb, Option.some_bind] at h
              cases hd : DataFrame.fromDict (scalarize dict) with
              | none => rw [hd, Option.none_bind] at h; cases h
              | some df0 =>
                  rw [hd, Option.some_bind] at h
                  cases h
                  exact ⟨t, st, amb, fields, dict, df0, rfl, hf, hb, hd,
                    rfl⟩

theorem cycle2df_uniform (cd : List (List ℚ)) (meta : Meta) (i : ℕ)
    (df : DataFrame) (h : _cycle2df cd meta i = some df) : df.Uniform := by
  obtain ⟨t, st, amb, fields, dict, df0, _, _, _, hd, hdf⟩ :=
    cycle2df_spec cd meta i df h
  subst hdf
  exact uniform_setCol _ _ _ (uniform_setCol _ _ _
    (uniform_setCol _ _ _ (uniform_fromDict _ _ hd)))

theorem cell_of_getCol_replicate (df : DataFrame) (n : String) (v : Value)
    (k : ℕ) (hg : df.getCol n = some (List.replicate df.nrows v))
    (hk : k < df.nrows) : df.cell n k = v := by
  unfold DataFrame.cell
  rw [hg]
  simp [List.getD, List.getElem?_replicate_of_lt hk]

/-! Concrete example data shared by several witnesses. -/

/-- Start timestamp of the running example (what the code computes for the
datevec `[2008, 5, 22, 21, 48, 39.015]`). -/
def stEx : PyDateTime := ⟨2008, 5, 22, 21, 48, 39, 15⟩

/-- Metadata for a single discharge cycle. -/
def metaEx : Meta :=
  { types := ["discharge"],
    start_times := [stEx],
    ambient_temps := [24] }

/-- Nested data block of a discharge cycle: six two-sample measurement
sequences and a one-element `Capacity` sequence. -/
def cdEx : List (List ℚ) :=
  [[1, 2], [3, 4], [5, 6], [7, 8], [9, 10], [11, 12], [21/10]]

/-- The table the model produces for `_cycle2df cdEx metaEx 0`. -/
def dfEx : DataFrame :=
  { nrows := 2,
    cols := [("Voltage_measured", [Value.num 1, Value.num 2]),
             ("Current_measured", [Value.num 3, Value.num 4]),
             ("Temperature_measured", [Value.num 5, Value.num 6]),
             ("Current_charge", [Value.num 7, Value.num 8]),
             ("Voltage_charge", [Value.num 9, Value.num 10]),
             ("Time", [Value.num 11, Value.num 12]),
             ("Capacity", [Value.num (21/10), Value.num (21/10)]),
             ("type", [Value.str "discharge", Value.str "discharge"]),
             ("start_time", [Value.dt stEx, Value.dt stEx]),
             ("ambient_temp", [Value.num 24, Value.num 24])] }

/-! Evaluation lemmas for `pyInt` on integer-valued rationals. -/

theorem pyInt_intCast (z : ℤ) : pyInt ((z : ℚ)) = z := by
  unfold pyInt
  rcases le_or_lt 0 ((z : ℚ)) with h | h
  · rw [if_pos h, Int.floor_intCast]
  · rw [if_neg (not_le.mpr h), Int.ceil_intCast]

theorem pyInt_ofNat (n : ℕ) [n.AtLeastTwo] :
    pyInt (OfNat.ofNat n : ℚ) = OfNat.ofNat n := by
  rw [← Int.cast_ofNat, pyInt_intCast]

theorem pyInt_zero : pyInt 0 = 0 := by
  rw [show (0 : ℚ) = ((0 : ℤ) : ℚ) by norm_num, pyInt_intCast]

theorem pyInt_one : pyInt 1 = 1 := by
  rw [show (1 : ℚ) = ((1 : ℤ) : ℚ) by norm_num, pyInt_intCast]

/-! Claim theorems. -/

/-- C1 (code evaluation at the failing input): on the spec's example datevec
`[2008, 5, 22, 21, 48, 39.015]` the code round-trips year/month/day/hour/
minute/whole-second, but stores `int((39.015-39)*1000) = 15` in the
`microsecond` field of the timestamp, so the resulting sub-second part is
`15/1000000` seconds — not the `15/1000` seconds (15 ms) the claim asserts. -/
theorem C1_milliseconds_bug :
    _datevec2datetime [2008, 5, 22, 21, 48, 39015/1000] =
      some ⟨2008, 5, 22, 21, 48, 39, 15⟩ ∧
    subsecSeconds ⟨2008, 5, 22, 21, 48, 39, 15⟩ ≠ 15/1000 := by
  constructor
  · have hstep : _datevec2datetime [2008, 5, 22, 21, 48, 39015/1000] =
        datetime (pyInt 2008) (pyInt 5) (pyInt 22) (pyInt 21) (pyInt 48)
          (pyInt (39015/1000))
          (pyInt ((39015/1000 - (pyInt (39015/1000) : ℚ)) * 1000)) := rfl
    rw [hstep]
    have h5 : pyInt (39015/1000 : ℚ) = 39 := by
      unfold pyInt
      rw [if_pos (by norm_num), Int.floor_eq_iff]
      norm_num
    rw [h5, pyInt_ofNat, pyInt_ofNat, pyInt_ofNat, pyInt_ofNat, pyInt_ofNat]
    have h6 : ((39015/1000 : ℚ) - ((39 : ℤ) : ℚ)) * 1000 = 15 := by
      push_cast
      norm_num
    rw [h6, pyInt_ofNat]
    unfold datetime daysInMonth
    norm_num
  · unfold subsecSeconds
    norm_num

/-- C9: a date vector with fewer than six components makes
`_datevec2datetime` raise (`none`): no partial timestamp is produced. -/
theorem C9_short_datevec_fatal (vec : List ℚ) (h : vec.length < 6) :
    _datevec2datetime vec = none := by
  have h5 : vec.get? 5 = none := by
    rw [List.get?_eq_none]
    omega
  unfold _datevec2datetime
  split
  · rename_i heq
    rw [h5] at heq
    cases heq
  · rfl

/-- C9 witness: the three-component vector `[2008, 5, 22]` is rejected. -/
theorem C9_short_datevec_fatal_witness :
    _datevec2datetime [2008, 5, 22] = none :=
  C9_short_datevec_fatal [2008, 5, 22] (by decide)

/-- C5: in every row of a table `_cycle2df` builds for cycle `i`, the
`type`, `start_time` and `ambient_temp` columns hold exactly the cycle's
metadata triple `(types[i], start_times[i], ambient_temps[i])`. -/
theorem C5_metadata_constant_columns (cd : List (List ℚ)) (meta : Meta)
    (i : ℕ) (t : String) (st : PyDateTime) (amb : ℚ) (df : DataFrame)
    (hm : _get_metadata_at meta i = some (t, st, amb))
    (h : _cycle2df cd meta i = some df) :
    ∀ k, k < df.nrows →
      df.cell "type" k = Value.str t ∧
      df.cell "start_time" k = Value.dt st ∧
      df.cell "ambient_temp" k = Value.num amb := by
  obtain ⟨t', st', amb', fields, dict, df0, hm', _, _, _, hdf⟩ :=
    cycle2df_spec cd meta i df h
  rw [hm] at hm'
  cases hm'
  intro k hk
  have hnr1 : ((df0.setCol "type" (Value.str t)).setCol "start_time"
      (Value.dt st)).nrows = df0.nrows := by
    rw [nrows_setCol, nrows_setCol]
  have hnr : df.nrows = df0.nrows := by
    rw [hdf, nrows_setCol, hnr1]
  refine ⟨?_, ?_, ?_⟩
  · apply cell_of_getCol_replicate df "type" (Value.str t) k _ hk
    rw [hnr, hdf]
    rw [getCol_setCol_ne _ _ _ _ (by decide),
      getCol_setCol_ne _ _ _ _ (by decide), getCol_setCol_self]
  · apply cell_of_getCol_replicate df "start_time" (Value.dt st) k _ hk
    rw [hnr, hdf]
    rw [getCol_setCol_ne _ _ _ _ (by decide), getCol_setCol_self,
      nrows_setCol]
  · apply cell_of_getCol_replicate df "ambient_temp" (Value.num amb) k _ hk
    rw [hnr, hdf]
    rw [getCol_setCol_self, nrows_setCol, nrows_setCol]

/-- C5 witness: for the concrete discharge cycle `cdEx` the rows carry the
metadata triple. -/
theorem C5_metadata_constant_columns_witness :
    dfEx.cell "type" 0 = Value.str "discharge" ∧
    dfEx.cell "start_time" 0 = Value.dt stEx ∧
    dfEx.cell "ambient_temp" 0 = Value.num 24 :=
  C5_metadata_constant_columns cdEx metaEx 0 "discharge" stEx 24 dfEx
    rfl rfl 0 (by decide)

/-! Helper lemmas relating `_get_metadata` to the cycle list, and the
error-propagation of the whole-file transform. -/

theorem get_metadata_spec (cycles : List CycleRecord) (meta : Meta)
    (hmeta : _get_metadata cycles = some meta) :
    meta.types = cycles.map (fun c => c.type) ∧
    meta.ambient_temps = cycles.map (fun c => c.ambient_temperature) ∧
    meta.start_times.length = cycles.length ∧
    ∀ i (hi : i < cycles.length),
      meta.start_times.get? i =
        _datevec2datetime (cycles.get ⟨i, hi⟩).time := by
  unfold _get_metadata at hmeta
  cases hmm : cycles.mapM (fun c => _datevec2datetime c.time) with
  | none => rw [hmm] at hmeta; cases hmeta
  | some sts =>
      rw [hmm] at hmeta
      cases hmeta
      rw [← List.mapM'_eq_mapM] at hmm
      refine ⟨rfl, rfl, mapMo_length _ _ _ hmm, ?_⟩
      intro i hi
      exact mapMo_get? _ _ _ hmm i (cycles.get ⟨i, hi⟩) (List.get?_eq_get hi)

theorem metadata_at_of_metadata (cycles : List CycleRecord) (meta : Meta)
    (i : ℕ) (hi : i < cycles.length)
    (hmeta : _get_metadata cycles = some meta) :
    ∃ st, _datevec2datetime (cycles.get ⟨i, hi⟩).time = some st ∧
      _get_metadata_at meta i = some ((cycles.get ⟨i, hi⟩).type, st,
        (cycles.get ⟨i, hi⟩).ambient_temperature) := by
  obtain ⟨hty, hamb, hlen, hst⟩ := get_metadata_spec cycles meta hmeta
  have h1 : meta.types.get? i = some (cycles.get ⟨i, hi⟩).type := by
    rw [hty, List.get?_map, List.get?_eq_get hi]
    rfl
  have h3 : meta.ambient_temps.get? i =
      some (cycles.get ⟨i, hi⟩).ambient_temperature := by
    rw [hamb, List.get?_map, List.get?_eq_get hi]
    rfl
  have h2e : ∃ st, meta.start_times.get? i = some st := by
    rw [List.get?_eq_get (show i < meta.start_times.length by omega)]
    exact ⟨_, rfl⟩
  obtain ⟨st, h2⟩ := h2e
  refine ⟨st, ((hst i hi).symm.trans h2 : _ = some st), ?_⟩
  unfold _get_metadata_at
  rw [h1, h2, h3]

theorem read_nasa_transform_abort (cycles : List CycleRecord) (meta : Meta)
    (i : ℕ) (hi : i < cycles.length)
    (hmeta : _get_metadata cycles = some meta)
    (hcyc : _cycle2df (cycles.get ⟨i, hi⟩).data meta i = none) :
    read_nasa_transform cycles = none := by
  unfold read_nasa_transform
  rw [hmeta]
  simp only [bind, Option.some_bind]
  have hmem : (i, cycles.get ⟨i, hi⟩) ∈ cycles.enum := by
    rw [List.mem_enum_iff_getElem?]
    simp [List.getElem?_eq_getElem hi, List.get_eq_getElem]
  have hnone := mapMo_none (fun p => _cycle2df p.2.data meta p.1)
    cycles.enum (i, cycles.get ⟨i, hi⟩) hmem hcyc
  rw [← List.mapM'_eq_mapM, hnone]
  rfl

/-! Evaluation of `_datevec2datetime` on the integer datevecs used by the
concrete witness cycles. -/

theorem datevec_eval_1 : _datevec2datetime [2008, 5, 22, 21, 48, 39] =
    some ⟨2008, 5, 22, 21, 48, 39, 0⟩ := by
  have hstep : _datevec2datetime [2008, 5, 22, 21, 48, 39] =
      datetime (pyInt 2008) (pyInt 5) (pyInt 22) (pyInt 21) (pyInt 48)
        (pyInt 39) (pyInt ((39 - (pyInt 39 : ℚ)) * 1000)) := rfl
  rw [hstep, pyInt_ofNat, pyInt_ofNat, pyInt_ofNat, pyInt_ofNat, pyInt_ofNat,
    pyInt_ofNat]
  have h0 : ((39 : ℚ) - ((39 : ℤ) : ℚ)) * 1000 = 0 := by
    push_cast
    ring
  rw [h0, pyInt_zero]
  unfold datetime daysInMonth
  norm_num

theorem datevec_eval_2 : _datevec2datetime [2008, 5, 23, 1, 2, 3] =
    some ⟨2008, 5, 23, 1, 2, 3, 0⟩ := by
  have hstep : _datevec2datetime [2008, 5, 23, 1, 2, 3] =
      datetime (pyInt 2008) (pyInt 5) (pyInt 23) (pyInt 1) (pyInt 2)
        (pyInt 3) (pyInt ((3 - (pyInt 3 : ℚ)) * 1000)) := rfl
  rw [hstep, pyInt_ofNat, pyInt_ofNat, pyInt_ofNat, pyInt_one, pyInt_ofNat,
    pyInt_ofNat]
  have h0 : ((3 : ℚ) - ((3 : ℤ) : ℚ)) * 1000 = 0 := by
    push_cast
    ring
  rw [h0, pyInt_zero]
  unfold datetime daysInMonth
  norm_num

/-! Concrete witness cycles. -/

/-- A cycle with a type tag outside the schema table. -/
def cycRest : CycleRecord :=
  { type := "rest", time := [2008, 5, 22, 21, 48, 39],
    ambient_temperature := 24, data := [[1, 2]] }

/-- Metadata the model extracts from `[cycRest]`. -/
def metaRest : Meta :=
  { types := ["rest"], start_times := [⟨2008, 5, 22, 21, 48, 39, 0⟩],
    ambient_temps := [24] }

theorem get_metadata_cycRest : _get_metadata [cycRest] = some metaRest := by
  unfold _get_metadata
  rw [← List.mapM'_eq_mapM]
  simp only [List.mapM', cycRest, datevec_eval_1, Option.pure_def,
    Option.bind_eq_bind, Option.some_bind]
  rfl

/-- A charge cycle whose nested block has fewer sequences (2) than the
charge schema has fields (6). -/
def cycFew : CycleRecord :=
  { type := "charge", time := [2008, 5, 22, 21, 48, 39],
    ambient_temperature := 24, data := [[1, 2], [3, 4]] }

/-- Metadata the model extracts from `[cycFew]`. -/
def metaCh : Meta :=
  { types := ["charge"], start_times := [⟨2008, 5, 22, 21, 48, 39, 0⟩],
    ambient_temps := [24] }

theorem get_metadata_cycFew : _get_metadata [cycFew] = some metaCh := by
  unfold _get_metadata
  rw [← List.mapM'_eq_mapM]
  simp only [List.mapM', cycFew, datevec_eval_1, Option.pure_def,
    Option.bind_eq_bind, Option.some_bind]
  rfl

/-- Nested block of a charge cycle with one sequence more (7) than the
charge schema has fields (6). -/
def cdMoreEx : List (List ℚ) :=
  [[1, 2], [3, 4], [5, 6], [7, 8], [9, 10], [11, 12], [13, 14]]

/-- A charge cycle all of whose six field sequences hold exactly one
sample. -/
def cycScal : CycleRecord :=
  { type := "charge", time := [2008, 5, 22, 21, 48, 39],
    ambient_temperature := 24,
    data := [[1], [2], [3], [4], [5], [6]] }

theorem get_metadata_cycScal : _get_metadata [cycScal] = some metaCh := by
  unfold _get_metadata
  rw [← List.mapM'_eq_mapM]
  simp only [List.mapM', cycScal, datevec_eval_1, Option.pure_def,
    Option.bind_eq_bind, Option.some_bind]
  rfl

/-- C4: a cycle whose type tag is outside `{charge, discharge, impedance}`
makes the schema lookup raise, `_cycle2df` produce no table, and the
whole-file transform abort: unknown cycles are never skipped silently. -/
theorem C4_unknown_type_fatal (cycles : List CycleRecord) (meta : Meta)
    (i : ℕ) (hi : i < cycles.length)
    (hmeta : _get_metadata cycles = some meta)
    (ht : (cycles.get ⟨i, hi⟩).type ≠ "charge" ∧
          (cycles.get ⟨i, hi⟩).type ≠ "discharge" ∧
          (cycles.get ⟨i, hi⟩).type ≠ "impedance") :
    DATA_FIELDS ((cycles.get ⟨i, hi⟩).type) = none ∧
    _cycle2df ((cycles.get ⟨i, hi⟩).data) meta i = none ∧
    read_nasa_transform cycles = none := by
  obtain ⟨st, _, hmat⟩ := metadata_at_of_metadata cycles meta i hi hmeta
  have hDF : DATA_FIELDS ((cycles.get ⟨i, hi⟩).type) = none := by
    unfold DATA_FIELDS
    rw [if_neg ht.1, if_neg ht.2.1, if_neg ht.2.2]
  have hcyc : _cycle2df ((cycles.get ⟨i, hi⟩).data) meta i = none := by
    unfold _cycle2df
    rw [hmat]
    simp only [bind, Option.some_bind]
    rw [hDF]
    rfl
  exact ⟨hDF, hcyc,
    read_nasa_transform_abort cycles meta i hi hmeta hcyc⟩

/-- C4 witness: the concrete `rest` cycle aborts everything. -/
theorem C4_unknown_type_fatal_witness :
    DATA_FIELDS "rest" = none ∧
    _cycle2df [[1, 2]] metaRest 0 = none ∧
    read_nasa_transform [cycRest] = none :=
  C4_unknown_type_fatal [cycRest] metaRest 0 (by decide)
    get_metadata_cycRest ⟨by decide, by decide, by decide⟩

/-- C3 counterexample: a charge cycle whose nested block has one more
sequence than the schema's six fields does not raise — `_cycle2df`
produces a table, silently ignoring the extra sequence — refuting the
claim that any field-count mismatch (also "more") is a fatal error. -/
theorem C3_extra_fields_not_fatal :
    cdMoreEx.length ≠ chargeFields.length ∧
    (_cycle2df cdMoreEx metaCh 0).isSome = true := by
  constructor
  · decide
  · rfl

/-- C3 (amended): a nested block with fewer sequences than the schema's
field count makes `_cycle2df` raise and the whole-file transform abort;
blocks with more sequences than fields do not raise (the extras are
silently ignored). -/
theorem C3_missing_fields_fatal (cycles : List CycleRecord) (meta : Meta)
    (i : ℕ) (hi : i < cycles.length)
    (hmeta : _get_metadata cycles = some meta) (fields : List String)
    (hf : DATA_FIELDS ((cycles.get ⟨i, hi⟩).type) = some fields)
    (hlt : ((cycles.get ⟨i, hi⟩).data).length < fields.length) :
    _cycle2df ((cycles.get ⟨i, hi⟩).data) meta i = none ∧
    read_nasa_transform cycles = none := by
  obtain ⟨st, _, hmat⟩ := metadata_at_of_metadata cycles meta i hi hmeta
  have hcyc : _cycle2df ((cycles.get ⟨i, hi⟩).data) meta i = none := by
    unfold _cycle2df
    rw [hmat]
    simp only [bind, Option.some_bind]
    rw [hf]
    simp only [Option.some_bind]
    unfold buildDict
    rw [if_neg (by omega)]
    rfl
  exact ⟨hcyc, read_nasa_transform_abort cycles meta i hi hmeta hcyc⟩

/-- C3 witness: a charge cycle with only two of the six expected
sequences aborts the transform. -/
theorem C3_missing_fields_fatal_witness :
    _cycle2df [[1, 2], [3, 4]] metaCh 0 = none ∧
    read_nasa_transform [cycFew] = none :=
  C3_missing_fields_fatal [cycFew] metaCh 0 (by decide)
    get_metadata_cycFew chargeFields rfl (by decide)

/-- C10: a cycle all of whose extracted field sequences have exactly one
element leaves `cycle_dict` with scalars only, which the `DataFrame`
constructor rejects (`ValueError: If using all scalar values, you must
pass an index`), so `_cycle2df` raises and the whole-file transform
aborts. -/
theorem C10_all_scalars_fatal (cycles : List CycleRecord) (meta : Meta)
    (i : ℕ) (hi : i < cycles.length)
    (hmeta : _get_metadata cycles = some meta) (fields : List String)
    (hf : DATA_FIELDS ((cycles.get ⟨i, hi⟩).type) = some fields)
    (hge : fields.length ≤ ((cycles.get ⟨i, hi⟩).data).length)
    (hall : ∀ j, j < fields.length →
      ∃ x : ℚ, ((cycles.get ⟨i, hi⟩).data).get? j = some [x]) :
    _cycle2df ((cycles.get ⟨i, hi⟩).data) meta i = none ∧
    read_nasa_transform cycles = none := by
  obtain ⟨st, _, hmat⟩ := metadata_at_of_metadata cycles meta i hi hmeta
  have hfne : fields ≠ [] := by
    unfold DATA_FIELDS at hf
    split_ifs at hf <;> cases hf <;> decide
  have hdictscl : ∀ p ∈ fields.zip ((cycles.get ⟨i, hi⟩).data),
      ∃ x : ℚ, p.2 = [x] := by
    intro p hp
    obtain ⟨j, hj⟩ := List.mem_iff_get?.mp hp
    have hjf : fields.get? j = some p.1 ∧
        ((cycles.get ⟨i, hi⟩).data).get? j = some p.2 :=
      (List.get?_zip_eq_some _ _ _ _).mp hj
    have hjlen : j < fields.length := by
      obtain ⟨hlt, _⟩ := List.get?_eq_some.mp hjf.1
      exact hlt
    obtain ⟨x, hx⟩ := hall j hjlen
    rw [hjf.2] at hx
    exact ⟨x, (Option.some.injEq _ _).mp hx⟩
  have harr : arrLens (scalarize (fields.zip ((cycles.get ⟨i, hi⟩).data)))
      = [] := by
    unfold arrLens scalarize
    rw [List.filterMap_map, List.filterMap_eq_nil]
    intro p hp
    obtain ⟨x, hx⟩ := hdictscl p hp
    simp [Function.comp, hx]
  have hzne : (scalarize (fields.zip
      ((cycles.get ⟨i, hi⟩).data))).isEmpty = false := by
    rw [List.isEmpty_eq_false_iff_exists_mem]
    have hpos : 0 < (scalarize (fields.zip
        ((cycles.get ⟨i, hi⟩).data))).length := by
      unfold scalarize
      rw [List.length_map, List.length_zip]
      have hfl : 0 < fields.length := List.length_pos.mpr hfne
      omega
    obtain ⟨p, hp⟩ := List.exists_mem_of_length_pos hpos
    exact ⟨p, hp⟩
  have hfd : DataFrame.fromDict
      (scalarize (fields.zip ((cycles.get ⟨i, hi⟩).data))) = none := by
    unfold DataFrame.fromDict
    rw [harr]
    simp only [List.head?_nil]
    rw [hzne]
    simp
  have hcyc : _cycle2df ((cycles.get ⟨i, hi⟩).data) meta i = none := by
    unfold _cycle2df
    rw [hmat]
    simp only [bind, Option.some_bind]
    rw [hf]
    simp only [Option.some_bind]
    unfold buildDict
    rw [if_pos hge]
    simp only [Option.some_bind]
    rw [hfd]
    rfl
  exact ⟨hcyc, read_nasa_transform_abort cycles meta i hi hmeta hcyc⟩

/-- C10 witness: a charge cycle with six one-sample sequences aborts the
transform. -/
theorem C10_all_scalars_fatal_witness :
    _cycle2df [[1], [2], [3], [4], [5], [6]] metaCh 0 = none ∧
    read_nasa_transform [cycScal] = none := by
  have h := C10_all_scalars_fatal [cycScal] metaCh 0 (by decide)
    get_metadata_cycScal chargeFields rfl (by decide)
    (by
      intro j hj
      have hj6 : j < 6 := by simpa [chargeFields] using hj
      interval_cases j
      · exact ⟨1, rfl⟩
      · exact ⟨2, rfl⟩
      · exact ⟨3, rfl⟩
      · exact ⟨4, rfl⟩
      · exact ⟨5, rfl⟩
      · exact ⟨6, rfl⟩)
  exact h

/-- C7: `_get_metadata` returns three parallel sequences of length equal to
the number of cycles, where position `i` carries cycle `i`'s type tag, the
converted timestamp of cycle `i`'s date vector, and cycle `i`'s ambient
temperature — no reordering, filtering, or deduplication. -/
theorem C7_parallel_metadata (cycles : List CycleRecord) (meta : Meta)
    (h : _get_metadata cycles = some meta) :
    meta.types.length = cycles.length ∧
    meta.start_times.length = cycles.length ∧
    meta.ambient_temps.length = cycles.length ∧
    ∀ i (hi : i < cycles.length),
      meta.types.get? i = some ((cycles.get ⟨i, hi⟩).type) ∧
      meta.start_times.get? i =
        _datevec2datetime ((cycles.get ⟨i, hi⟩).time) ∧
      meta.ambient_temps.get? i =
        some ((cycles.get ⟨i, hi⟩).ambient_temperature) := by
  obtain ⟨hty, hamb, hlen, hst⟩ := get_metadata_spec cycles meta h
  refine ⟨by rw [hty, List.length_map], ?_, by rw [hamb, List.length_map],
    ?_⟩
  · exact hlen
  · intro i hi
    refine ⟨?_, hst i hi, ?_⟩
    · rw [hty, List.get?_map, List.get?_eq_get hi]
      rfl
    · rw [hamb, List.get?_map, List.get?_eq_get hi]
      rfl

/-- C7 witness: the parallel sequences extracted from the one-cycle list
`[cycRest]`. -/
theorem C7_parallel_metadata_witness :
    metaRest.types.length = 1 ∧
    metaRest.types.get? 0 = some "rest" ∧
    metaRest.start_times.get? 0 = _datevec2datetime cycRest.time ∧
    metaRest.ambient_temps.get? 0 = some 24 := by
  obtain ⟨h1, _, _, h4⟩ :=
    C7_parallel_metadata [cycRest] metaRest get_metadata_cycRest
  obtain ⟨ha, hb, hc⟩ := h4 0 (by decide)
  exact ⟨h1, ha, hb, hc⟩

/-- C8 counterexample: at battery index 100 the constructed path is
`./data/raw/B00100.mat`, whose digit group after `B00` has three
characters; no two-character group `d` satisfies the claimed shape
`./data/raw/B00 + d + .mat`, so the "exactly 2 digits for every index"
claim fails. -/
theorem C8_pad_overflow :
    file_path 100 = "./data/raw/B00100.mat" ∧
    ¬ ∃ d : String, d.length = 2 ∧
      file_path 100 = "./data/raw/B00" ++ d ++ ".mat" := by
  constructor
  · rfl
  · rintro ⟨d, hd, he⟩
    have hlen := congrArg String.length he
    rw [String.length_append, String.length_append, hd] at hlen
    rw [show (file_path 100).length = 21 from rfl] at hlen
    rw [show ("./data/raw/B00" : String).length = 14 from rfl] at hlen
    rw [show (".mat" : String).length = 4 from rfl] at hlen
    omega

/-- C8 (amended): for every battery index up to 99 the source path is
`./data/raw/B00` followed by the index zero-padded to exactly two digits
and the `.mat` suffix; from index 100 on, `%02d` keeps the full (longer)
decimal form, so the two-digit shape no longer holds. -/
theorem C8_path_convention (i : ℕ) (h : i ≤ 99) :
    file_path i = "./data/raw/B00" ++ pct02d i ++ ".mat" ∧
    (pct02d i).length = 2 := by
  constructor
  · unfold file_path battery_name
    rw [← String.append_assoc]
    rfl
  · have hall : ∀ j < 100, (pct02d j).length = 2 := by decide
    exact hall i (by omega)

/-- C8 witness: index 5 yields the path `./data/raw/B0005.mat` with the
two-digit group `05`. -/
theorem C8_path_convention_witness :
    file_path 5 = "./data/raw/B00" ++ pct02d 5 ++ ".mat" ∧
    (pct02d 5).length = 2 :=
  C8_path_convention 5 (by decide)

/-! Lemmas on the lengths of the extracted sequences, used for the row-count
claim. -/

theorem zip_snd_take {α β : Type} :
    ∀ (a : List α) (b : List β), a.length ≤ b.length →
      (a.zip b).map (fun p => p.2) = b.take a.length := by
  intro a
  induction a with
  | nil => intro b _; rfl
  | cons x t ih =>
      intro b hb
      cases b with
      | nil => simp at hb
      | cons y s =>
          simp only [List.zip_cons_cons, List.map_cons, List.length_cons,
            List.take_succ_cons]
          exact congrArg (y :: ·) (ih s (by simpa using hb))

theorem scalarize_keys :
    ∀ (d : List (String × List ℚ)),
      (scalarize d).map (fun p => p.1) = d.map (fun p => p.1) := by
  intro d
  induction d with
  | nil => rfl
  | cons p t ih =>
      rcases p with ⟨s, l⟩
      rcases l with _ | ⟨x, _ | ⟨y, tl⟩⟩ <;>
        · simp only [scalarize, List.map_cons] at ih ⊢
          rw [ih]

theorem arrLens_scalarize :
    ∀ (d : List (String × List ℚ)),
      arrLens (scalarize d) =
        ((d.map (fun p => p.2)).map (fun l => l.length)).filter
          (fun L => L ≠ 1) := by
  intro d
  induction d with
  | nil => rfl
  | cons p t ih =>
      rcases p with ⟨s, l⟩
      rcases l with _ | ⟨x, _ | ⟨y, tl⟩⟩ <;>
        simp [scalarize, arrLens, List.filterMap_cons] at ih ⊢ <;>
        exact ih

theorem filter_gt_one (l : List ℕ) :
    l.filter (fun L => 1 < L) =
      (l.filter (fun L => L ≠ 1)).filter (fun L => 1 < L) := by
  rw [List.filter_filter]
  apply List.filter_congr
  intro x _
  by_cases h : 1 < x
  · simp [h, Nat.ne_of_gt h]
  · simp [h]

theorem foldr_max_const (L : ℕ) :
    ∀ (l : List ℕ), l ≠ [] → (∀ x ∈ l, x = L) →
      l.foldr max 0 = L := by
  intro l
  induction l with
  | nil => intro h; cases h rfl
  | cons a t ih =>
      intro _ hall
      have ha : a = L := hall a (by simp)
      cases t with
      | nil => simp [ha]
      | cons b tb =>
          have ht := ih (by simp) (fun x hx => hall x (by
            simp only [List.mem_cons] at hx ⊢
            tauto))
          simp only [List.foldr_cons] at ht ⊢
          rw [ht, ha, max_self]

theorem find?_of_keys_nodup {α : Type} :
    ∀ (l : List (String × α)) (j : ℕ) (hj : j < l.length),
      (l.map (fun p => p.1)).Nodup →
      l.find? (fun p => p.1 = (l.get ⟨j, hj⟩).1) = some (l.get ⟨j, hj⟩) := by
  intro l
  induction l with
  | nil => intro j hj; simp at hj
  | cons p t ih =>
      intro j hj hnd
      cases j with
      | zero =>
          rw [List.find?_cons_of_pos _ (by simp)]
          rfl
      | succ n =>
          have hjt : n < t.length := by simpa using hj
          have hmem : ((p :: t).get ⟨n + 1, hj⟩).1 ∈ t.map (fun p => p.1) := by
            have : (p :: t).get ⟨n + 1, hj⟩ = t.get ⟨n, hjt⟩ := rfl
            rw [this]
            exact List.mem_map_of_mem _ (t.get_mem _ _)
          have hne : ¬ p.1 = ((p :: t).get ⟨n + 1, hj⟩).1 := by
            simp only [List.map_cons, List.nodup_cons] at hnd
            intro he
            exact hnd.1 (he ▸ hmem)
          rw [List.find?_cons_of_neg _ (by simpa using hne)]
          exact ih n hjt (by
            simp only [List.map_cons, List.nodup_cons] at hnd
            exact hnd.2)

theorem getCol_fromDict (d : List (String × ColVal)) (df : DataFrame)
    (h : DataFrame.fromDict d = some df) (j : ℕ) (hj : j < d.length)
    (hnd : (d.map (fun p => p.1)).Nodup) :
    df.getCol ((d.get ⟨j, hj⟩).1) =
      some (colValToCol df.nrows ((d.get ⟨j, hj⟩).2)) := by
  obtain ⟨hcols, _, _, _⟩ := fromDict_spec d df h
  unfold DataFrame.getCol
  rw [hcols, List.find?_map]
  show Option.map (fun p => p.2) (Option.map
      (fun (p : String × ColVal) => (p.1, colValToCol df.nrows p.2))
      (List.find? (fun (p : String × ColVal) =>
        decide (p.1 = (d.get ⟨j, hj⟩).1)) d)) =
    some (colValToCol df.nrows (d.get ⟨j, hj⟩).2)
  rw [find?_of_keys_nodup d j hj hnd]
  rfl

/-- C2: when `_cycle2df` builds a table for a cycle whose extracted field
sequences are not all one-element, the row count equals the length of the
longest extracted sequence of length greater than one, and every field whose
extracted sequence has exactly one element is broadcast as a scalar: its
column repeats that single value in every row. -/
theorem C2_rowcount_and_broadcast (cd : List (List ℚ)) (meta : Meta)
    (i : ℕ) (t : String) (st : PyDateTime) (amb : ℚ) (fields : List String)
    (df : DataFrame)
    (hm : _get_metadata_at meta i = some (t, st, amb))
    (hf : DATA_FIELDS t = some fields)
    (hns : ¬ ∀ L ∈ extractedLens fields cd, L = 1)
    (h : _cycle2df cd meta i = some df) :
    df.nrows = maxNonScalarLen fields cd ∧
    ∀ j (hj : j < fields.length) (x : ℚ), cd.get? j = some [x] →
      df.getCol (fields.get ⟨j, hj⟩) =
        some (List.replicate df.nrows (Value.num x)) := by
  obtain ⟨t', st', amb', fields', dict, df0, hm', hf', hb, hd, hdf⟩ :=
    cycle2df_spec cd meta i df h
  rw [hm] at hm'
  cases hm'
  rw [hf] at hf'
  cases hf'
  have hbb : fields.length ≤ cd.length ∧ dict = fields.zip cd := by
    unfold buildDict at hb
    by_cases hge : fields.length ≤ cd.length
    · rw [if_pos hge] at hb
      cases hb
      exact ⟨hge, rfl⟩
    · rw [if_neg hge] at hb
      cases hb
  obtain ⟨hge, hdict⟩ := hbb
  subst hdict
  have hfacts : fields.Nodup ∧ fields ≠ [] ∧
      ∀ f ∈ fields, f ≠ "type" ∧ f ≠ "start_time" ∧
        f ≠ "ambient_temp" := by
    unfold DATA_FIELDS at hf
    split_ifs at hf <;> cases hf <;> exact ⟨by decide, by decide, by decide⟩
  obtain ⟨hnd, hfne, hnometa⟩ := hfacts
  have hnr : df.nrows = df0.nrows := by
    rw [hdf]
    simp only [nrows_setCol]
  have hkeys : ((fields.zip cd).map (fun p => p.1)) = fields :=
    List.map_fst_zip fields cd hge
  have harr : arrLens (scalarize (fields.zip cd)) =
      (extractedLens fields cd).filter (fun L => L ≠ 1) := by
    rw [arrLens_scalarize]
    unfold extractedLens
    rw [zip_snd_take fields cd hge]
  obtain ⟨hcols, hall, hempty, hhead⟩ := fromDict_spec _ _ hd
  have hzlen : (fields.zip cd).length = fields.length := by
    rw [List.length_zip]
    omega
  have harrne : arrLens (scalarize (fields.zip cd)) ≠ [] := by
    intro hc
    obtain ⟨hdnil, _⟩ := hempty hc
    have hlz := congrArg List.length hdnil
    unfold scalarize at hlz
    rw [List.length_map, hzlen] at hlz
    exact hfne (List.length_eq_zero.mp (by simpa using hlz))
  obtain ⟨a, l', hcons⟩ := List.exists_cons_of_ne_nil harrne
  have haL : a = df0.nrows := hall a (by rw [hcons]; simp)
  have hLarr : df0.nrows ∈ arrLens (scalarize (fields.zip cd)) := by
    rw [hcons, ← haL]
    simp
  have hLne1 : df0.nrows ≠ 1 := by
    rw [harr] at hLarr
    have := List.of_mem_filter hLarr
    simpa using this
  have hmax : maxNonScalarLen fields cd = df0.nrows := by
    unfold maxNonScalarLen
    rw [filter_gt_one, ← harr]
    rcases Nat.eq_zero_or_pos df0.nrows with h0 | hpos
    · have hnil : (arrLens (scalarize (fields.zip cd))).filter
          (fun L => 1 < L) = [] := by
        rw [List.filter_eq_nil]
        intro x hx
        have hxL := hall x hx
        simp [hxL, h0]
      rw [hnil]
      simp [h0]
    · have h2 : 2 ≤ df0.nrows := by omega
      have hkeep : (arrLens (scalarize (fields.zip cd))).filter
          (fun L => 1 < L) = arrLens (scalarize (fields.zip cd)) := by
        rw [List.filter_eq_self]
        intro x hx
        have hxL := hall x hx
        simp only [hxL, decide_eq_true_eq]
        omega
      rw [hkeep]
      exact foldr_max_const df0.nrows _ harrne hall
  refine ⟨by rw [hnr, hmax], ?_⟩
  intro j hj x hx
  have hjs : j < (scalarize (fields.zip cd)).length := by
    unfold scalarize
    rw [List.length_map, hzlen]
    omega
  have hgetz : (fields.zip cd).get? j = some (fields.get ⟨j, hj⟩, [x]) := by
    rw [List.get?_zip_eq_some]
    exact ⟨List.get?_eq_get hj, hx⟩
  have hgets : (scalarize (fields.zip cd)).get? j =
      some (fields.get ⟨j, hj⟩, ColVal.scl x) := by
    unfold scalarize
    rw [List.get?_map, hgetz]
    rfl
  have hgetsg : (scalarize (fields.zip cd)).get ⟨j, hjs⟩ =
      (fields.get ⟨j, hj⟩, ColVal.scl x) :=
    Option.some.inj ((List.get?_eq_get hjs).symm.trans hgets)
  have hndk : ((scalarize (fields.zip cd)).map (fun p => p.1)).Nodup := by
    rw [scalarize_keys, hkeys]
    exact hnd
  have hgc := getCol_fromDict _ _ hd j hjs hndk
  rw [hgetsg] at hgc
  have hne3 := hnometa (fields.get ⟨j, hj⟩) (fields.get_mem _ _)
  rw [hnr, hdf, getCol_setCol_ne _ _ _ _ hne3.2.2,
    getCol_setCol_ne _ _ _ _ hne3.2.1, getCol_setCol_ne _ _ _ _ hne3.1,
    hgc]
  rfl

/-- C2 witness: the discharge cycle `cdEx` with two-sample measurement
sequences and the one-element `Capacity = [2.1]` yields a 2-row table with
`Capacity` equal to `2.1` in both rows. -/
theorem C2_rowcount_and_broadcast_witness :
    dfEx.nrows = 2 ∧
    dfEx.nrows = maxNonScalarLen dischargeFields cdEx ∧
    dfEx.getCol "Capacity" =
      some (List.replicate dfEx.nrows (Value.num (21/10))) := by
  have h := C2_rowcount_and_broadcast cdEx metaEx 0 "discharge" stEx 24
    dischargeFields dfEx rfl rfl (by decide) rfl
  refine ⟨rfl, h.1, ?_⟩
  have hb := h.2 6 (by decide) (21/10) rfl
  exact hb

/-! Lemmas about the concatenation of per-cycle tables. -/

theorem getCol_isSome_iff (d : DataFrame) (n : String) :
    (d.getCol n).isSome = true ↔ n ∈ d.colNames := by
  unfold DataFrame.getCol DataFrame.colNames
  rw [Option.isSome_map']
  rw [List.find?_isSome]
  constructor
  · rintro ⟨p, hp, hpred⟩
    simp only [decide_eq_true_eq] at hpred
    exact hpred ▸ List.mem_map_of_mem _ hp
  · intro hmem
    obtain ⟨p, hp, hpn⟩ := List.mem_map.mp hmem
    exact ⟨p, hp, by simp [hpn]⟩

theorem blockCol_length (d : DataFrame) (n : String) (hU : d.Uniform) :
    (blockCol d n).length = d.nrows := by
  unfold blockCol
  cases hg : d.getCol n with
  | none => simp
  | some col =>
      unfold DataFrame.getCol at hg
      cases hf : d.cols.find? (fun p => p.1 = n) with
      | none => rw [hf] at hg; cases hg
      | some p =>
          rw [hf] at hg
          cases hg
          exact hU p (List.mem_of_find?_eq_some hf)

theorem flatMap_blocks_get? (f : DataFrame → List Value) :
    ∀ (dfs : List DataFrame) (i : ℕ) (hi : i < dfs.length) (k : ℕ),
      (∀ d ∈ dfs, (f d).length = d.nrows) →
      k < (dfs.get ⟨i, hi⟩).nrows →
      (dfs.flatMap f).get?
          ((((dfs.take i).map (fun d => d.nrows)).sum) + k) =
        (f (dfs.get ⟨i, hi⟩)).get? k := by
  intro dfs
  induction dfs with
  | nil => intro i hi; simp at hi
  | cons d t ih =>
      intro i hi k hlen hk
      cases i with
      | zero =>
          simp only [List.take_zero, List.map_nil, List.sum_nil,
            Nat.zero_add, List.flatMap_cons]
          rw [List.get?_append (by rw [hlen d (by simp)]; exact hk)]
          rfl
      | succ n =>
          have hnt : n < t.length := by simpa using hi
          simp only [List.take_succ_cons, List.map_cons, List.sum_cons,
            List.flatMap_cons]
          rw [List.get?_append_right (by rw [hlen d (by simp)]; omega)]
          have harith : d.nrows + (((t.take n).map (fun d => d.nrows)).sum)
              + k - (f d).length =
              (((t.take n).map (fun d => d.nrows)).sum) + k := by
            rw [hlen d (by simp)]
            omega
          rw [harith]
          exact ih n hnt k (fun x hx => hlen x (by simp [hx])) hk

theorem mem_unionCols_aux :
    ∀ (dfs : List DataFrame) (acc : List String) (n : String),
      (n ∈ dfs.foldl (fun acc df =>
        acc ++ (df.colNames.filter (fun m => ¬ acc.contains m))) acc) ↔
      (n ∈ acc ∨ ∃ d ∈ dfs, n ∈ d.colNames) := by
  intro dfs
  induction dfs with
  | nil => intro acc n; simp
  | cons d t ih =>
      intro acc n
      rw [List.foldl_cons, ih]
      constructor
      · rintro (h | h)
        · rcases List.mem_append.mp h with h | h
          · exact Or.inl h
          · exact Or.inr ⟨d, by simp, (List.mem_filter.mp h).1⟩
        · obtain ⟨df, hdf, hn⟩ := h
          exact Or.inr ⟨df, by simp [hdf], hn⟩
      · rintro (h | ⟨df, hdf, hn⟩)
        · exact Or.inl (List.mem_append.mpr (Or.inl h))
        · rcases List.mem_cons.mp hdf with rfl | hdf
          · by_cases hacc : n ∈ acc
            · exact Or.inl (List.mem_append.mpr (Or.inl hacc))
            · refine Or.inl (List.mem_append.mpr (Or.inr ?_))
              refine List.mem_filter.mpr ⟨hn, ?_⟩
              simp only [List.contains_eq_any_beq]
              simp [hacc]
          · exact Or.inr ⟨df, hdf, hn⟩

theorem mem_unionCols (dfs : List DataFrame) (n : String) :
    n ∈ unionCols dfs ↔ ∃ d ∈ dfs, n ∈ d.colNames := by
  unfold unionCols
  rw [mem_unionCols_aux]
  simp

theorem find?_self_of_mem :
    ∀ (l : List String) (n : String), n ∈ l →
      l.find? (fun m => m = n) = some n := by
  intro l n
  induction l with
  | nil => intro h; simp at h
  | cons a t ih =>
      intro h
      by_cases ha : a = n
      · rw [List.find?_cons_of_pos _ (by simpa using ha), ha]
      · rcases List.mem_cons.mp h with rfl | hmem
        · exact absurd rfl ha
        · rw [List.find?_cons_of_neg _ (by simpa using ha)]
          exact ih hmem

theorem concatDfs_spec (dfs : List DataFrame) (df : DataFrame)
    (h : concatDfs dfs = some df) :
    dfs ≠ [] ∧ df.nrows = (dfs.map (fun d => d.nrows)).sum ∧
    df.cols = (unionCols dfs).map (fun n =>
      (n, dfs.flatMap (fun d => blockCol d n))) := by
  unfold concatDfs at h
  cases dfs with
  | nil => cases h
  | cons d t =>
      cases h
      exact ⟨by simp, rfl, rfl⟩

theorem getCol_concat (dfs : List DataFrame) (df : DataFrame)
    (h : concatDfs dfs = some df) (n : String) (hn : n ∈ unionCols dfs) :
    df.getCol n = some (dfs.flatMap (fun d => blockCol d n)) := by
  obtain ⟨_, _, hcols⟩ := concatDfs_spec dfs df h
  unfold DataFrame.getCol
  rw [hcols, List.find?_map]
  show Option.map (fun p => p.2) (Option.map
      (fun (m : String) => (m, dfs.flatMap (fun d => blockCol d m)))
      (List.find? (fun (m : String) => decide (m = n)) (unionCols dfs))) =
    some (dfs.flatMap (fun d => blockCol d n))
  rw [find?_self_of_mem (unionCols dfs) n hn]
  rfl

theorem getCol_concat_none (dfs : List DataFrame) (df : DataFrame)
    (h : concatDfs dfs = some df) (n : String)
    (hn : ¬ n ∈ unionCols dfs) : df.getCol n = none := by
  obtain ⟨_, _, hcols⟩ := concatDfs_spec dfs df h
  unfold DataFrame.getCol
  rw [hcols, List.find?_map]
  show Option.map (fun p => p.2) (Option.map
      (fun (m : String) => (m, dfs.flatMap (fun d => blockCol d m)))
      (List.find? (fun (m : String) => decide (m = n)) (unionCols dfs))) =
    none
  have hfn : (unionCols dfs).find? (fun m => decide (m = n)) = none := by
    rw [List.find?_eq_none]
    intro m hm hdec
    simp only [decide_eq_true_eq] at hdec
    exact hn (hdec ▸ hm)
  rw [hfn]
  rfl

theorem read_nasa_spec (cycles : List CycleRecord) (df : DataFrame)
    (h : read_nasa_transform cycles = some df) :
    ∃ meta dfs, _get_metadata cycles = some meta ∧
      cycles.enum.mapM (fun p => _cycle2df p.2.data meta p.1) = some dfs ∧
      concatDfs dfs = some df := by
  unfold read_nasa_transform at h
  cases hm : _get_metadata cycles with
  | none => rw [hm] at h; cases h
  | some meta =>
      rw [hm] at h
      simp only [bind, Option.some_bind] at h
      cases hd : cycles.enum.mapM (fun p => _cycle2df p.2.data meta p.1) with
      | none => rw [hd] at h; cases h
      | some dfs =>
          rw [hd] at h
          exact ⟨meta, dfs, rfl, hd, h⟩

/-- C6: the concatenated output of the whole-file transform stacks the
per-cycle tables in source order — block `i` (one table per cycle, in cycle
order) occupies the rows from `sum of the previous blocks' row counts`
onward under a fresh positional index — and a column absent from a cycle's
schema is filled with missing values in that cycle's rows while still
present in the output (never dropped). -/
theorem C6_concat_preserves_order (cycles : List CycleRecord) (meta : Meta)
    (dfs : List DataFrame) (df : DataFrame)
    (hmeta : _get_metadata cycles = some meta)
    (hdfs : cycles.enum.mapM (fun p => _cycle2df p.2.data meta p.1) =
      some dfs)
    (hc : concatDfs dfs = some df) :
    read_nasa_transform cycles = some df ∧
    dfs.length = cycles.length ∧
    (∀ i (hi : i < cycles.length),
      _cycle2df ((cycles.get ⟨i, hi⟩).data) meta i = dfs.get? i) ∧
    df.nrows = (dfs.map (fun d => d.nrows)).sum ∧
    (∀ i (hi : i < dfs.length) (k : ℕ), k < (dfs.get ⟨i, hi⟩).nrows →
      ∀ name : String,
        df.cell name ((((dfs.take i).map (fun d => d.nrows)).sum) + k) =
          (if ((dfs.get ⟨i, hi⟩).getCol name).isSome = true
           then (dfs.get ⟨i, hi⟩).cell name k
           else Value.na)) ∧
    (∀ i (hi : i < dfs.length) (name : String),
      ((dfs.get ⟨i, hi⟩).getCol name).isSome = true →
      (df.getCol name).isSome = true) := by
  have hrn : read_nasa_transform cycles = some df := by
    unfold read_nasa_transform
    rw [hmeta]
    simp only [bind, Option.some_bind]
    rw [hdfs]
    exact hc
  have hdfs' := hdfs
  rw [← List.mapM'_eq_mapM] at hdfs'
  have hlen : dfs.length = cycles.length := by
    have := mapMo_length _ _ _ hdfs'
    simpa using this
  have hpt : ∀ i (hi : i < cycles.length),
      _cycle2df ((cycles.get ⟨i, hi⟩).data) meta i = dfs.get? i := by
    intro i hi
    have henum : cycles.enum.get? i = some (i, cycles.get ⟨i, hi⟩) := by
      rw [List.get?_enum, List.get?_eq_get hi]
      rfl
    exact (mapMo_get? _ _ _ hdfs' i (i, cycles.get ⟨i, hi⟩) henum).symm
  have hU : ∀ d ∈ dfs, d.Uniform := by
    intro d hd
    obtain ⟨idx, hidx⟩ := List.mem_iff_get?.mp hd
    obtain ⟨hidxd, _⟩ := List.get?_eq_some.mp hidx
    have hidxc : idx < cycles.length := by omega
    have hcy := hpt idx hidxc
    rw [hidx] at hcy
    exact cycle2df_uniform _ _ _ _ hcy
  obtain ⟨hne, hnrows, hcols⟩ := concatDfs_spec dfs df hc
  refine ⟨hrn, hlen, hpt, hnrows, ?_, ?_⟩
  · intro i hi k hk name
    by_cases hu : name ∈ unionCols dfs
    · have hgc := getCol_concat dfs df hc name hu
      have hflen : ∀ d ∈ dfs, (blockCol d name).length = d.nrows :=
        fun d hd => blockCol_length d name (hU d hd)
      have hidx := flatMap_blocks_get? (fun d => blockCol d name) dfs i hi k
        hflen hk
      have hcell : df.cell name
          ((((dfs.take i).map (fun d => d.nrows)).sum) + k) =
          (dfs.flatMap fun d => blockCol d name).getD
            ((((dfs.take i).map (fun d => d.nrows)).sum) + k) Value.na := by
        unfold DataFrame.cell
        rw [hgc]
      rw [hcell, List.getD_eq_get?, hidx]
      cases hgi : (dfs.get ⟨i, hi⟩).getCol name with
      | none =>
          simp only [hgi, Option.isSome_none, Bool.false_eq_true, if_false]
          show ((blockCol (dfs.get ⟨i, hi⟩) name).get? k).getD Value.na =
            Value.na
          unfold blockCol
          rw [hgi, List.get?_eq_getElem?, List.getElem?_replicate_of_lt hk]
          rfl
      | some col =>
          simp only [hgi, Option.isSome_some, if_true]
          show ((blockCol (dfs.get ⟨i, hi⟩) name).get? k).getD Value.na =
            (dfs.get ⟨i, hi⟩).cell name k
          have hrhs : (dfs.get ⟨i, hi⟩).cell name k =
              col.getD k Value.na := by
            unfold DataFrame.cell
            rw [hgi]
          have hlhs : blockCol (dfs.get ⟨i, hi⟩) name = col := by
            unfold blockCol
            rw [hgi]
          rw [hrhs, hlhs, List.getD_eq_get?]
    · have hgc := getCol_concat_none dfs df hc name hu
      have hgi : (dfs.get ⟨i, hi⟩).getCol name = none := by
        cases hgi : (dfs.get ⟨i, hi⟩).getCol name with
        | none => rfl
        | some col =>
            exfalso
            apply hu
            rw [mem_unionCols]
            exact ⟨dfs.get ⟨i, hi⟩, List.get_mem _ _ _,
              (getCol_isSome_iff _ _).mp (by rw [hgi]; rfl)⟩
      unfold DataFrame.cell
      rw [hgc, hgi]
      simp
  · intro i hi name hsome
    have hu : name ∈ unionCols dfs := by
      rw [mem_unionCols]
      exact ⟨dfs.get ⟨i, hi⟩, List.get_mem _ _ _,
        (getCol_isSome_iff _ _).mp hsome⟩
    rw [getCol_concat dfs df hc name hu]
    rfl

/-! Concrete two-cycle witness data for the concatenation claim. -/

/-- A complete charge cycle with two samples per field. -/
def cycCh6 : CycleRecord :=
  { type := "charge", time := [2008, 5, 22, 21, 48, 39],
    ambient_temperature := 24,
    data := [[1, 2], [3, 4], [5, 6], [7, 8], [9, 10], [11, 12]] }

/-- A complete discharge cycle with two samples per field and a one-element
`Capacity`. -/
def cycDis : CycleRecord :=
  { type := "discharge", time := [2008, 5, 23, 1, 2, 3],
    ambient_temperature := 24,
    data := [[1, 2], [3, 4], [5, 6], [7, 8], [9, 10], [11, 12], [21/10]] }

/-- Converted start timestamp of `cycCh6`. -/
def stEx1 : PyDateTime := ⟨2008, 5, 22, 21, 48, 39, 0⟩

/-- Converted start timestamp of `cycDis`. -/
def stEx2 : PyDateTime := ⟨2008, 5, 23, 1, 2, 3, 0⟩

/-- Metadata of the two-cycle file `[cycCh6, cycDis]`. -/
def meta2 : Meta :=
  { types := ["charge", "discharge"], start_times := [stEx1, stEx2],
    ambient_temps := [24, 24] }

theorem get_metadata_pair : _get_metadata [cycCh6, cycDis] = some meta2 := by
  unfold _get_metadata
  rw [← List.mapM'_eq_mapM]
  simp only [List.mapM', cycCh6, cycDis, datevec_eval_1, datevec_eval_2,
    Option.pure_def, Option.bind_eq_bind, Option.some_bind]
  rfl

/-- Table of the charge cycle `cycCh6`. -/
def dfCh : DataFrame :=
  { nrows := 2,
    cols := [("Voltage_measured", [Value.num 1, Value.num 2]),
             ("Current_measured", [Value.num 3, Value.num 4]),
             ("Temperature_measured", [Value.num 5, Value.num 6]),
             ("Current_charge", [Value.num 7, Value.num 8]),
             ("Voltage_charge", [Value.num 9, Value.num 10]),
             ("Time", [Value.num 11, Value.num 12]),
             ("type", [Value.str "charge", Value.str "charge"]),
             ("start_time", [Value.dt stEx1, Value.dt stEx1]),
             ("ambient_temp", [Value.num 24, Value.num 24])] }

/-- Table of the discharge cycle `cycDis`. -/
def dfDis : DataFrame :=
  { nrows := 2,
    cols := [("Voltage_measured", [Value.num 1, Value.num 2]),
             ("Current_measured", [Value.num 3, Value.num 4]),
             ("Temperature_measured", [Value.num 5, Value.num 6]),
             ("Current_charge", [Value.num 7, Value.num 8]),
             ("Voltage_charge", [Value.num 9, Value.num 10]),
             ("Time", [Value.num 11, Value.num 12]),
             ("Capacity", [Value.num (21/10), Value.num (21/10)]),
             ("type", [Value.str "discharge", Value.str "discharge"]),
             ("start_time", [Value.dt stEx2, Value.dt stEx2]),
             ("ambient_temp", [Value.num 24, Value.num 24])] }

/-- Concatenated table of the two-cycle file: the charge block's two rows
first, then the discharge block's two rows, with `Capacity` missing (NA) in
the charge rows. -/
def dfCat : DataFrame :=
  { nrows := 4,
    cols := [("Voltage_measured",
              [Value.num 1, Value.num 2, Value.num 1, Value.num 2]),
             ("Current_measured",
              [Value.num 3, Value.num 4, Value.num 3, Value.num 4]),
             ("Temperature_measured",
              [Value.num 5, Value.num 6, Value.num 5, Value.num 6]),
             ("Current_charge",
              [Value.num 7, Value.num 8, Value.num 7, Value.num 8]),
             ("Voltage_charge",
              [Value.num 9, Value.num 10, Value.num 9, Value.num 10]),
             ("Time",
              [Value.num 11, Value.num 12, Value.num 11, Value.num 12]),
             ("type",
              [Value.str "charge", Value.str "charge",
               Value.str "discharge", Value.str "discharge"]),
             ("start_time",
              [Value.dt stEx1, Value.dt stEx1,
               Value.dt stEx2, Value.dt stEx2]),
             ("ambient_temp",
              [Value.num 24, Value.num 24, Value.num 24, Value.num 24]),
             ("Capacity",
              [Value.na, Value.na,
               Value.num (21/10), Value.num (21/10)])] }

/-- C6 witness: on the two-cycle file the output stacks the charge block
before the discharge block, has 2 + 2 rows, and fills `Capacity` with NA in
the charge rows while carrying `2.1` in the discharge rows. -/
theorem C6_concat_preserves_order_witness :
    read_nasa_transform [cycCh6, cycDis] = some dfCat ∧
    dfCat.nrows = 4 ∧
    dfCat.cell "Capacity" 0 = Value.na ∧
    dfCat.cell "Capacity" 2 = Value.num (21/10) ∧
    dfCat.cell "type" 2 = Value.str "discharge" := by
  have h := C6_concat_preserves_order [cycCh6, cycDis] meta2 [dfCh, dfDis]
    dfCat get_metadata_pair rfl rfl
  refine ⟨h.1, ?_, ?_, ?_, ?_⟩
  · exact h.2.2.2.1
  · exact h.2.2.2.2.1 0 (by decide) 0 (by decide) "Capacity"
  · exact h.2.2.2.2.1 1 (by decide) 0 (by decide) "Capacity"
  · exact h.2.2.2.2.1 1 (by decide) 0 (by decide) "type"

end ReadNasa
